import Mathlib

/-!
Verification development for the batch conversion orchestration engine of
chunker-batch-converter (src/main.py).  The Python code is shallowly
embedded: pure fragments become Lean functions, the threaded run loop of
ConversionThread.run becomes an explicit labelled step function over a
state record, and the external converter process is an oracle assigning a
behaviour (exit code plus captured diagnostic lines, or a raised
exception) to each world.
-/

/-- Model of Python str.strip() restricted to the ASCII whitespace that
Char.isWhitespace recognises (space, tab, CR, LF); the Unicode extras of
Python never occur in the converter's output protocol. -/
def pystrip (s : String) : String :=
  String.mk (((s.data.dropWhile Char.isWhitespace).reverse.dropWhile Char.isWhitespace).reverse)

/-- Model of Python str.lower() on the ASCII format tokens the tool uses. -/
def strLower (s : String) : String :=
  String.mk (s.data.map Char.toLower)

/-- Character-list test: the first argument occurs at the head of the second. -/
def leadsWith : List Char → List Char → Bool
  | [], _ => true
  | _ :: _, [] => false
  | a :: as, b :: bs => a = b && leadsWith as bs

/-- Character-list substring test, modelling the Python `in` operator on str. -/
def hasSub (needle : List Char) : List Char → Bool
  | [] => leadsWith needle []
  | c :: rest => leadsWith needle (c :: rest) || hasSub needle rest

/-- The check `"Missing" in line` from ConversionThread.run.read_output. -/
def hasMissing (s : String) : Bool :=
  hasSub "Missing".data s.data

/-- Model of `line.replace('%', '')`: a one-character pattern replaced by the
empty string removes every occurrence of that character. -/
def stripPct (l : List Char) : List Char :=
  l.filter (fun c => c ≠ '%')

/-- Model of `line.endswith('%')`. -/
def endsWithPct (l : List Char) : Bool :=
  l.getLast? = some '%'

/-- Value of a block of decimal digit characters. -/
def digitsVal (ds : List Char) : Nat :=
  ds.foldl (fun a c => 10 * a + (c.toNat - '0'.toNat)) 0

/-- Exact value of a parsed Python float, kept as an unnormalised fraction
with an integer numerator and a natural denominator (always a power of ten
as produced by the literal parser, hence never zero).  The converter's
percentage lines carry short decimal literals, for which binary
double-precision rounding never flips any comparison the code performs, so
exact fractions are a faithful model. -/
structure PyQ where
  num : ℤ
  den : ℕ
  deriving DecidableEq

/-- The integer zero as a PyQ, the initial value of last_percentage. -/
def PyQ.zero : PyQ := ⟨0, 1⟩

/-- Negation of an exact float value. -/
def PyQ.neg (q : PyQ) : PyQ := ⟨-q.num, q.den⟩

/-- Scaling by a signed power of ten, for exponent parts of literals. -/
def PyQ.mulPow10 (q : PyQ) : ℤ → PyQ
  | Int.ofNat k => ⟨q.num * (10 : ℤ) ^ k, q.den⟩
  | Int.negSucc k => ⟨q.num, q.den * 10 ^ (k + 1)⟩

/-- Rational value denoted by a PyQ. -/
def PyQ.toRat (q : PyQ) : ℚ := (q.num : ℚ) / (q.den : ℚ)

/-- The test `abs(percentage - last_percentage) >= 1.0` on exact values,
carried out by cross multiplication. -/
def PyQ.absDiffGeOne (a b : PyQ) : Bool :=
  ((a.den : ℤ) * (b.den : ℤ)) ≤ |a.num * (b.den : ℤ) - b.num * (a.den : ℤ)|

/-- Model of Python int() applied to a float value: truncation toward zero. -/
def pytrunc (q : PyQ) : ℤ :=
  q.num.tdiv (q.den : ℤ)

/-- Exponent digits of a float literal: nonempty, all decimal. -/
def pyExpDigits (l : List Char) : Option ℤ :=
  if l ≠ [] ∧ l.all Char.isDigit then some (digitsVal l : ℤ) else none

/-- Signed exponent part of a float literal. -/
def pyExpPart : List Char → Option ℤ
  | '+' :: rest => pyExpDigits rest
  | '-' :: rest => (pyExpDigits rest).map (fun z => -z)
  | l => pyExpDigits l

/-- Unsigned decimal float literal: digits, optional fraction, optional
exponent.  The whole list must be consumed. -/
def pyUnsigned (l : List Char) : Option PyQ :=
  let ip := l.takeWhile Char.isDigit
  let rest := l.dropWhile Char.isDigit
  match rest with
  | [] => if ip = [] then none else some ⟨digitsVal ip, 1⟩
  | '.' :: rest2 =>
    let fp := rest2.takeWhile Char.isDigit
    let rest3 := rest2.dropWhile Char.isDigit
    if ip = [] ∧ fp = [] then none
    else
      let m : PyQ := ⟨digitsVal ip * 10 ^ fp.length + digitsVal fp, 10 ^ fp.length⟩
      match rest3 with
      | [] => some m
      | c :: rest4 =>
        if c = 'e' ∨ c = 'E' then (pyExpPart rest4).map m.mulPow10 else none
  | c :: rest2 =>
    if (c = 'e' ∨ c = 'E') ∧ ip ≠ [] then
      (pyExpPart rest2).map (PyQ.mulPow10 ⟨digitsVal ip, 1⟩)
    else none

/-- Optionally signed float literal body. -/
def pyfloatChars : List Char → Option PyQ
  | '+' :: rest => pyUnsigned rest
  | '-' :: rest => (pyUnsigned rest).map PyQ.neg
  | l => pyUnsigned l

/-- Model of Python float(s) on finite decimal literals, returning none where
float() raises ValueError.  float() strips surrounding whitespace itself.
The special spellings inf/infinity/nan and digit-group underscores are
outside the modelled grammar; no converter output line uses them. -/
def pyfloat? (s : String) : Option PyQ :=
  pyfloatChars (pystrip s).data

/-- Shared mutable state of the two reader threads in ConversionThread.run:
the hysteresis reference value last_percentage (initialised to 0) and the
accumulated "Missing"-tagged lines (errors). -/
structure ReaderState where
  last_percentage : PyQ
  errors : List String
  deriving DecidableEq

/-- Signals emitted while reading converter output: progress_updated
(world name, integer percentage) and log_message. -/
inductive RunEvent
  | progress (world : String) (pct : ℤ)
  | log (msg : String)
  deriving DecidableEq

/-- The percentage branch of read_output (src/main.py lines 158-166): on a
non-error line containing a percent sign, parse float(line.replace('%',''));
a ValueError is swallowed (none); on success, emit only when the parsed
value moved by at least 1.0 from the stored reference, updating it. -/
def progressStep (world : String) (is_error : Bool) (line : String) (st : ReaderState) :
    ReaderState × List RunEvent :=
  if line.data.contains '%' = true ∧ is_error = false then
    match pyfloat? (String.mk (stripPct line.data)) with
    | some p =>
      if p.absDiffGeOne st.last_percentage = true then
        ({ st with last_percentage := p }, [RunEvent.progress world (pytrunc p)])
      else (st, [])
    | none => (st, [])
  else (st, [])

/-- One line through read_output (src/main.py lines 153-172): strip, skip
empty lines, run the percentage branch, then the logging branch, which is
taken for error-stream lines and for non-error lines not ending in a
percent sign, and which also accumulates lines containing "Missing". -/
def processLine (world : String) (is_error : Bool) (raw : String) (st : ReaderState) :
    ReaderState × List RunEvent :=
  let line := pystrip raw
  if line = "" then (st, [])
  else
    let p := progressStep world is_error line st
    if is_error = true ∨ endsWithPct line.data = false then
      let st2 := if hasMissing line = true then { p.1 with errors := p.1.errors ++ [line] } else p.1
      (st2, p.2 ++ [RunEvent.log ("[" ++ world ++ "] " ++ line)])
    else p

/-- The logging branch of read_output taken on its own (the percentage
branch skipped entirely), used to state that a failed percentage parse
leaves logging unaffected. -/
def logOnly (world : String) (is_error : Bool) (raw : String) (st : ReaderState) :
    ReaderState × List RunEvent :=
  let line := pystrip raw
  if line = "" then (st, [])
  else if is_error = true ∨ endsWithPct line.data = false then
    (if hasMissing line = true then { st with errors := st.errors ++ [line] } else st,
     [RunEvent.log ("[" ++ world ++ "] " ++ line)])
  else (st, [])

/-- A serialised sequence of (is_error, line) pairs through read_output. -/
def runLines (world : String) : List (Bool × String) → ReaderState → ReaderState × List RunEvent
  | [], st => (st, [])
  | (e, s) :: rest, st =>
    let r1 := processLine world e s st
    let r2 := runLines world rest r1.1
    (r2.1, r1.2 ++ r2.2)

/-- The spec's wording of a progress line: the stripped line is a float
literal immediately followed by a single final percent sign. -/
def specNumberPercent (s : String) : Bool :=
  endsWithPct (pystrip s).data ∧ (pyfloatChars ((pystrip s).data.dropLast)).isSome

/-- A directory as seen through os.listdir plus os.path.isdir: the names of
its immediate non-directory children and of its immediate subdirectories. -/
structure Dir where
  files : List String
  subdirs : List String
  deriving DecidableEq

/-- The combined os.listdir listing of a directory. -/
def listdir (d : Dir) : List String :=
  d.files ++ d.subdirs

/-- ChunkerBatchConverter.is_minecraft_world (src/main.py lines 914-931):
the loop over java_indicators = ['level.dat', 'session.lock'] returns true
on the first membership hit, i.e. when either name is present; afterwards
a subdirectory literally named db also yields true.  (The variable
bedrock_indicators in the source is never read.) -/
def is_minecraft_world (d : Dir) : Bool :=
  let fs := listdir d
  if "level.dat" ∈ fs ∨ "session.lock" ∈ fs then true
  else if "db" ∈ fs ∧ "db" ∈ d.subdirs then true
  else false

/-- The spec's marker set for a convertible world: level.dat together with
session.lock, or level.dat together with a subdirectory named db. -/
def specConvertible (d : Dir) : Prop :=
  ("level.dat" ∈ listdir d ∧ "session.lock" ∈ listdir d) ∨
  ("level.dat" ∈ listdir d ∧ "db" ∈ d.subdirs)

/-- Model of os.path.join with a relative second component, as used on the
POSIX-style paths of the run loop. -/
def path_join (a b : String) : String :=
  a ++ "/" ++ b

/-- Output directory name for one world (src/main.py lines 111-115): with
add_suffix the format token, lower-cased, is appended after an underscore;
the world name itself is used as written. -/
def output_dir_name (add_suffix : Bool) (world_name target_version : String) : String :=
  if add_suffix then world_name ++ "_" ++ strLower target_version else world_name

/-- Directory creation guarded by an existence check (src/main.py lines
119-121): os.makedirs runs only when the path is absent, so a repeat
invocation leaves the filesystem unchanged and cannot fail. -/
def ensure_dir (fs : List String) (d : String) : List String :=
  if d ∈ fs then fs else fs ++ [d]

/-- Payload of the world_completed signal: one per-world result. -/
structure ConversionOutcome where
  world_name : String
  success : Bool
  message : String
  deriving DecidableEq

/-- Outcome construction on process exit (src/main.py lines 189-197). -/
def worldOutcome (wn : String) (returncode : ℤ) (errors : List String) : ConversionOutcome :=
  if returncode = 0 then
    { world_name := wn
      success := true
      message := "Conversion successful" ++
        (if errors = [] then "" else " with " ++ toString errors.length ++ " mapping warnings") }
  else
    { world_name := wn
      success := false
      message := "Failed with exit code " ++ toString returncode ++ ": " ++
        (if errors = [] then "Unknown error" else String.intercalate "\n" errors) }

/-- Behaviour of the external converter process for one world: either it
runs and exits with a code, having produced the given accumulated
"Missing"-tagged lines, or the attempt raises an exception (any point of
the per-world try block of src/main.py lines 131-200; the handler is the
same wherever it is raised). -/
inductive WorldBeh
  | completes (returncode : ℤ) (errors : List String)
  | raises (msg : String)

/-- Constructor arguments of ConversionThread plus the process oracle. -/
structure BatchCfg where
  worlds : List (String × String)
  jar_path : String
  output_dir : String
  target_version : String
  java_path : Option String
  add_suffix : Bool
  beh : String → WorldBeh

/-- Resolved output directory for one world of a run. -/
def targetDirOf (cfg : BatchCfg) (world_name : String) : String :=
  path_join cfg.output_dir (output_dir_name cfg.add_suffix world_name cfg.target_version)

/-- The runtime executable used to launch the converter: the java_path
override when set (Python truthiness: the empty string falls back too),
else the plain name java. -/
def effectiveJava (jp : Option String) : String :=
  match jp with
  | some j => if j = "" then "java" else j
  | none => "java"

/-- Argument vector built for one world (src/main.py lines 124-129). -/
def buildCmd (cfg : BatchCfg) (world_path tdir : String) : List String :=
  [effectiveJava cfg.java_path, "-jar", cfg.jar_path,
   "-i", world_path, "-o", tdir, "-f", cfg.target_version]

/-- State of one executing ConversionThread.run.  current_process mirrors
the Python attribute of that name (set by Popen, never reset); running is
the pid and world of the child actually in flight, none once it exited;
exited collects pids of finished processes; terms records each terminate()
request in order; started lists worlds whose process was launched. -/
structure BatchState where
  pending : List (String × String)
  stop_requested : Bool
  current_process : Option Nat
  running : Option (Nat × String)
  exited : List Nat
  next_pid : Nat
  started : List String
  terms : List Nat
  outcomes : List ConversionOutcome
  successful : Nat
  fs : List String
  done : Bool
  deriving DecidableEq

/-- State at entry of ConversionThread.run. -/
def initState (cfg : BatchCfg) : BatchState :=
  { pending := cfg.worlds
    stop_requested := false
    current_process := none
    running := none
    exited := []
    next_pid := 0
    started := []
    terms := []
    outcomes := []
    successful := 0
    fs := []
    done := false }

/-- Observable steps of the run loop interleaved with the GUI thread.
start and spawnFail are the top of a loop iteration (the stop_requested
check, directory creation, then Popen succeeding or raising); finish is
process exit plus outcome emission; cancel is ConversionThread.stop()
called from the GUI thread, possible at any point between the others;
exitLoop is leaving the loop and emitting conversion_completed. -/
inductive Lab
  | start (world : String) (pid : Nat)
  | spawnFail (world : String)
  | finish (world : String) (pid : Nat)
  | cancel
  | exitLoop
  deriving DecidableEq

/-- One labelled step of the run loop (src/main.py lines 104-208).  The
loop head takes the next pending world only when stop_requested is still
false (line 108) and no child is in flight (execution is sequential); the
target directory is created before Popen (lines 119-146); a raised
exception becomes a failed outcome for that world alone (lines 199-200);
process exit appends the outcome of lines 189-197 and leaves
current_process untouched; stop() (lines 204-208) sets the flag and sends
one terminate() to whatever current_process holds. -/
def stepFn (cfg : BatchCfg) (s : BatchState) : Lab → Option BatchState
  | Lab.start w pid =>
    match s.pending with
    | [] => none
    | (wn, _wp) :: rest =>
      if s.done = false ∧ s.stop_requested = false ∧ s.running = none ∧
          wn = w ∧ pid = s.next_pid then
        match cfg.beh wn with
        | WorldBeh.completes _ _ =>
          some { s with
            pending := rest
            fs := ensure_dir s.fs (targetDirOf cfg wn)
            current_process := some s.next_pid
            running := some (s.next_pid, wn)
            started := s.started ++ [wn]
            next_pid := s.next_pid + 1 }
        | WorldBeh.raises _ => none
      else none
  | Lab.spawnFail w =>
    match s.pending with
    | [] => none
    | (wn, _wp) :: rest =>
      if s.done = false ∧ s.stop_requested = false ∧ s.running = none ∧ wn = w then
        match cfg.beh wn with
        | WorldBeh.raises msg =>
          some { s with
            pending := rest
            fs := ensure_dir s.fs (targetDirOf cfg wn)
            outcomes := s.outcomes ++ [{ world_name := wn, success := false, message := msg }] }
        | WorldBeh.completes _ _ => none
      else none
  | Lab.finish w pid =>
    match s.running with
    | none => none
    | some (p, wn) =>
      if p = pid ∧ wn = w then
        match cfg.beh wn with
        | WorldBeh.completes rc errs =>
          some { s with
            running := none
            exited := s.exited ++ [p]
            outcomes := s.outcomes ++ [worldOutcome wn rc errs]
            successful := s.successful + (if rc = 0 then 1 else 0) }
        | WorldBeh.raises _ => none
      else none
  | Lab.cancel =>
    some { s with
      stop_requested := true
      terms := s.terms ++ (match s.current_process with | some p => [p] | none => []) }
  | Lab.exitLoop =>
    if s.done = false ∧ s.running = none ∧ (s.pending = [] ∨ s.stop_requested = true) then
      some { s with done := true }
    else none

/-- A whole schedule of labelled steps. -/
def runLabs (cfg : BatchCfg) : BatchState → List Lab → Option BatchState
  | s, [] => some s
  | s, l :: ls =>
    match stepFn cfg s l with
    | some s' => runLabs cfg s' ls
    | none => none

/-- The single outcome each world receives in an uncancelled run. -/
def expectedOutcome (cfg : BatchCfg) (w : String × String) : ConversionOutcome :=
  match cfg.beh w.1 with
  | WorldBeh.completes rc errs => worldOutcome w.1 rc errs
  | WorldBeh.raises msg => { world_name := w.1, success := false, message := msg }

/-- Ways ChunkerBatchConverter.start_conversion (src/main.py lines 705-835)
returns: each warn constructor is an early return behind a user-facing
message box, started is the construction and launch of a
ConversionThread. -/
inductive StartResult
  | warnMissingPaths
  | warnEmptyCustomFormat
  | warnEmptyFormat
  | warnJavaIncompatible
  | warnNoDirs
  | warnNoWorlds
  | started (worlds : List (String × String)) (fmt : String)
  deriving DecidableEq

/-- ChunkerBatchConverter.start_conversion up to thread launch.  jar_sel,
in_sel, out_sel are the truthiness of the three selected paths; input_dirs
are the immediate subdirectories of the input directory with their
contents (the os.path.isdir filtering of lines 739-740 already applied);
java_ok is the outcome of check_java_version.  Worlds are the
subdirectories passing is_minecraft_world, paired with their joined
paths; an empty filtered list aborts with a warning before any thread or
process exists. -/
def start_conversion (jar_sel in_sel out_sel : Bool) (format_combo custom_text : String)
    (java_ok : Bool) (input_path : String) (input_dirs : List (String × Dir)) : StartResult :=
  if ¬(jar_sel = true ∧ in_sel = true ∧ out_sel = true) then StartResult.warnMissingPaths
  else
    let tv := if format_combo = "Custom" then pystrip custom_text else format_combo
    if format_combo = "Custom" ∧ tv = "" then StartResult.warnEmptyCustomFormat
    else if tv = "" then StartResult.warnEmptyFormat
    else if java_ok = false then StartResult.warnJavaIncompatible
    else if input_dirs = [] then StartResult.warnNoDirs
    else
      let worlds := (input_dirs.filter (fun d => is_minecraft_world d.2)).map
        (fun d => (d.1, path_join input_path d.1))
      if worlds = [] then StartResult.warnNoWorlds
      else StartResult.started worlds tv

/-- A concrete two-world configuration whose converter always exits 0. -/
def cfgW : BatchCfg :=
  { worlds := [("a", "/a"), ("b", "/b")]
    jar_path := "chunker-cli-1.0.0.jar"
    output_dir := "/out"
    target_version := "JAVA_1_21_5"
    java_path := none
    add_suffix := false
    beh := fun _ => WorldBeh.completes 0 [] }

/-- State of cfgW after launching world a. -/
def sW1 : BatchState :=
  { pending := [("b", "/b")]
    stop_requested := false
    current_process := some 0
    running := some (0, "a")
    exited := []
    next_pid := 1
    started := ["a"]
    terms := []
    outcomes := []
    successful := 0
    fs := ["/out/a"]
    done := false }

/-- State of cfgW after launching world a and then a stop() request. -/
def sW2 : BatchState :=
  { sW1 with
    stop_requested := true
    terms := [0] }

/-- Final state of cfgW for the schedule start a, cancel, finish a, exit. -/
def sW4 : BatchState :=
  { sW2 with
    running := none
    exited := [0]
    outcomes := [{ world_name := "a", success := true, message := "Conversion successful" }]
    successful := 1
    done := true }

/-- State of cfgW after world a was launched and its process exited, the
loop not yet moved on: the stale handle is still held. -/
def sC9 : BatchState :=
  { sW1 with
    running := none
    exited := [0]
    outcomes := [{ world_name := "a", success := true, message := "Conversion successful" }]
    successful := 1 }

/-- A concrete configuration where world x raises at spawn and world y
completes with exit code 2 after a mapping warning. -/
def cfgE : BatchCfg :=
  { worlds := [("x", "/x"), ("y", "/y")]
    jar_path := "chunker-cli-1.0.0.jar"
    output_dir := "/out"
    target_version := "BEDROCK_1_20_80"
    java_path := none
    add_suffix := false
    beh := fun n => if n = "x" then WorldBeh.raises "boom" else
      WorldBeh.completes 2 ["Missing m"] }

/-- Final state of cfgE for the uncancelled schedule. -/
def sE : BatchState :=
  { pending := []
    stop_requested := false
    current_process := some 0
    running := none
    exited := [0]
    next_pid := 1
    started := ["y"]
    terms := []
    outcomes := [{ world_name := "x", success := false, message := "boom" },
      { world_name := "y", success := false, message := "Failed with exit code 2: Missing m" }]
    successful := 0
    fs := ["/out/x", "/out/y"]
    done := true }

/-- A concrete input-directory listing with a single subdirectory that is
not a world. -/
def dirsNW : List (String × Dir) := [("notes", ⟨["readme.txt"], []⟩)]

lemma stepFn_cancel_eq (cfg : BatchCfg) (s : BatchState) :
    stepFn cfg s Lab.cancel =
      some { s with
        stop_requested := true
        terms := s.terms ++ (match s.current_process with | some p => [p] | none => []) } := by
  rfl

lemma stepFn_start_inv {cfg : BatchCfg} {s : BatchState} {w : String} {pid : Nat}
    {s' : BatchState} (h : stepFn cfg s (Lab.start w pid) = some s') :
    ∃ wp rest rc errs,
      s.pending = (w, wp) :: rest ∧ s.done = false ∧ s.stop_requested = false ∧
      s.running = none ∧ pid = s.next_pid ∧ cfg.beh w = WorldBeh.completes rc errs ∧
      s' = { s with
        pending := rest
        fs := ensure_dir s.fs (targetDirOf cfg w)
        current_process := some s.next_pid
        running := some (s.next_pid, w)
        started := s.started ++ [w]
        next_pid := s.next_pid + 1 } := by
  unfold stepFn at h
  cases hp : s.pending with
  | nil => rw [hp] at h; exact absurd h (by simp)
  | cons hd rest =>
    obtain ⟨wn, wp⟩ := hd
    rw [hp] at h
    simp only at h
    split at h
    · rename_i hcond
      obtain ⟨hd1, hd2, hd3, hd4, hd5⟩ := hcond
      subst hd4
      split at h
      · rename_i rc errs hbeh
        refine ⟨wp, rest, rc, errs, rfl, hd1, hd2, hd3, hd5, hbeh, ?_⟩
        exact (Option.some.injEq _ _ ▸ h).symm
      · exact absurd h (by simp)
    · exact absurd h (by simp)

lemma stepFn_spawnFail_inv {cfg : BatchCfg} {s : BatchState} {w : String}
    {s' : BatchState} (h : stepFn cfg s (Lab.spawnFail w) = some s') :
    ∃ wp rest msg,
      s.pending = (w, wp) :: rest ∧ s.done = false ∧ s.stop_requested = false ∧
      s.running = none ∧ cfg.beh w = WorldBeh.raises msg ∧
      s' = { s with
        pending := rest
        fs := ensure_dir s.fs (targetDirOf cfg w)
        outcomes := s.outcomes ++ [{ world_name := w, success := false, message := msg }] } := by
  unfold stepFn at h
  cases hp : s.pending with
  | nil => rw [hp] at h; exact absurd h (by simp)
  | cons hd rest =>
    obtain ⟨wn, wp⟩ := hd
    rw [hp] at h
    simp only at h
    split at h
    · rename_i hcond
      obtain ⟨hd1, hd2, hd3, hd4⟩ := hcond
      subst hd4
      split at h
      · rename_i msg hbeh
        refine ⟨wp, rest, msg, rfl, hd1, hd2, hd3, hbeh, ?_⟩
        exact (Option.some.injEq _ _ ▸ h).symm
      · exact absurd h (by simp)
    · exact absurd h (by simp)

lemma stepFn_finish_inv {cfg : BatchCfg} {s : BatchState} {w : String} {pid : Nat}
    {s' : BatchState} (h : stepFn cfg s (Lab.finish w pid) = some s') :
    ∃ rc errs,
      s.running = some (pid, w) ∧ cfg.beh w = WorldBeh.completes rc errs ∧
      s' = { s with
        running := none
        exited := s.exited ++ [pid]
        outcomes := s.outcomes ++ [worldOutcome w rc errs]
        successful := s.successful + (if rc = 0 then 1 else 0) } := by
  unfold stepFn at h
  cases hr : s.running with
  | none => rw [hr] at h; exact absurd h (by simp)
  | some pw =>
    obtain ⟨p, wn⟩ := pw
    rw [hr] at h
    simp only at h
    split at h
    · rename_i hcond
      obtain ⟨hd1, hd2⟩ := hcond
      subst hd1; subst hd2
      split at h
      · rename_i rc errs hbeh
        refine ⟨rc, errs, rfl, hbeh, ?_⟩
        exact (Option.some.injEq _ _ ▸ h).symm
      · exact absurd h (by simp)
    · exact absurd h (by simp)

lemma stepFn_exitLoop_inv {cfg : BatchCfg} {s : BatchState}
    {s' : BatchState} (h : stepFn cfg s Lab.exitLoop = some s') :
    s.done = false ∧ s.running = none ∧ (s.pending = [] ∨ s.stop_requested = true) ∧
    s' = { s with done := true } := by
  simp only [stepFn] at h
  split at h
  · rename_i hcond
    exact ⟨hcond.1, hcond.2.1, hcond.2.2, (Option.some.injEq _ _ ▸ h).symm⟩
  · exact absurd h (by simp)

lemma runLabs_cons (cfg : BatchCfg) (s : BatchState) (l : Lab) (ls : List Lab) :
    runLabs cfg s (l :: ls) =
      match stepFn cfg s l with
      | some s' => runLabs cfg s' ls
      | none => none := rfl

lemma stop_blocks (cfg : BatchCfg) :
    ∀ (ls : List Lab) (s final : BatchState), s.stop_requested = true →
      runLabs cfg s ls = some final →
      (∀ w pid, Lab.start w pid ∉ ls) ∧ (∀ w, Lab.spawnFail w ∉ ls) ∧
      final.stop_requested = true := by
  intro ls
  induction ls with
  | nil =>
    intro s final hs h
    simp only [runLabs, Option.some.injEq] at h
    subst h
    exact ⟨by simp, by simp, hs⟩
  | cons l ls ih =>
    intro s final hs h
    rw [runLabs_cons] at h
    cases hstep : stepFn cfg s l with
    | none => rw [hstep] at h; exact absurd h (by simp)
    | some s' =>
      rw [hstep] at h
      have hl : (∀ w pid, l ≠ Lab.start w pid) ∧ (∀ w, l ≠ Lab.spawnFail w) ∧
          s'.stop_requested = true := by
        cases l with
        | start w pid =>
          obtain ⟨_, _, _, _, _, _, hstop, _, _, _, _⟩ := stepFn_start_inv hstep
          rw [hs] at hstop
          exact absurd hstop (by simp)
        | spawnFail w =>
          obtain ⟨_, _, _, _, _, hstop, _, _, _⟩ := stepFn_spawnFail_inv hstep
          rw [hs] at hstop
          exact absurd hstop (by simp)
        | finish w pid =>
          obtain ⟨_, _, _, _, hs'⟩ := stepFn_finish_inv hstep
          subst hs'
          exact ⟨(by intro a b hc; cases hc), (by intro a hc; cases hc), hs⟩
        | cancel =>
          rw [stepFn_cancel_eq] at hstep
          have := (Option.some.injEq _ _ ▸ hstep)
          subst this
          exact ⟨(by intro a b hc; cases hc), (by intro a hc; cases hc), rfl⟩
        | exitLoop =>
          obtain ⟨_, _, _, hs'⟩ := stepFn_exitLoop_inv hstep
          subst hs'
          exact ⟨(by intro a b hc; cases hc), (by intro a hc; cases hc), hs⟩
      obtain ⟨ih1, ih2, ih3⟩ := ih s' final hl.2.2 h
      refine ⟨?_, ?_, ih3⟩
      · intro w pid hmem
        rcases List.mem_cons.mp hmem with hc | hc
        · exact hl.1 w pid hc.symm
        · exact ih1 w pid hc
      · intro w hmem
        rcases List.mem_cons.mp hmem with hc | hc
        · exact hl.2.1 w hc.symm
        · exact ih2 w hc

lemma terms_frozen (cfg : BatchCfg) :
    ∀ (ls : List Lab) (s final : BatchState), Lab.cancel ∉ ls →
      runLabs cfg s ls = some final → final.terms = s.terms := by
  intro ls
  induction ls with
  | nil =>
    intro s final _ h
    simp only [runLabs, Option.some.injEq] at h
    subst h
    rfl
  | cons l ls ih =>
    intro s final hnc h
    rw [runLabs_cons] at h
    cases hstep : stepFn cfg s l with
    | none => rw [hstep] at h; exact absurd h (by simp)
    | some s' =>
      rw [hstep] at h
      have hterms : s'.terms = s.terms := by
        cases l with
        | start w pid =>
          obtain ⟨_, _, _, _, _, _, _, _, _, _, hs'⟩ := stepFn_start_inv hstep
          subst hs'; rfl
        | spawnFail w =>
          obtain ⟨_, _, _, _, _, _, _, _, hs'⟩ := stepFn_spawnFail_inv hstep
          subst hs'; rfl
        | finish w pid =>
          obtain ⟨_, _, _, _, hs'⟩ := stepFn_finish_inv hstep
          subst hs'; rfl
        | cancel => exact absurd (List.mem_cons_self _ _) hnc
        | exitLoop =>
          obtain ⟨_, _, _, hs'⟩ := stepFn_exitLoop_inv hstep
          subst hs'; rfl
      rw [ih s' final (fun hm => hnc (List.mem_cons_of_mem _ hm)) h, hterms]

lemma done_stuck (cfg : BatchCfg) :
    ∀ (ls : List Lab) (s final : BatchState), s.done = true → s.running = none →
      Lab.cancel ∉ ls → runLabs cfg s ls = some final → final = s := by
  intro ls
  induction ls with
  | nil =>
    intro s final _ _ _ h
    simp only [runLabs, Option.some.injEq] at h
    exact h.symm
  | cons l ls _ =>
    intro s final hdone hrun hnc h
    rw [runLabs_cons] at h
    cases hstep : stepFn cfg s l with
    | none => rw [hstep] at h; exact absurd h (by simp)
    | some s' =>
      exfalso
      cases l with
      | start w pid =>
        obtain ⟨_, _, _, _, _, hd, _, _, _, _, _⟩ := stepFn_start_inv hstep
        rw [hdone] at hd
        exact absurd hd (by simp)
      | spawnFail w =>
        obtain ⟨_, _, _, _, hd, _, _, _, _⟩ := stepFn_spawnFail_inv hstep
        rw [hdone] at hd
        exact absurd hd (by simp)
      | finish w pid =>
        obtain ⟨_, _, hr, _, _⟩ := stepFn_finish_inv hstep
        rw [hrun] at hr
        exact absurd hr (by simp)
      | cancel => exact hnc (List.mem_cons_self _ _)
      | exitLoop =>
        obtain ⟨hd, _, _, _⟩ := stepFn_exitLoop_inv hstep
        rw [hdone] at hd
        exact absurd hd (by simp)

lemma empty_pending_run (cfg : BatchCfg) :
    ∀ (ls : List Lab) (s final : BatchState),
      s.pending = [] → s.running = none → s.outcomes = [] → s.started = [] →
      runLabs cfg s ls = some final →
      final.outcomes = [] ∧ final.started = [] := by
  intro ls
  induction ls with
  | nil =>
    intro s final hp _ ho hs h
    simp only [runLabs, Option.some.injEq] at h
    subst h
    exact ⟨ho, hs⟩
  | cons l ls ih =>
    intro s final hp hr ho hs h
    rw [runLabs_cons] at h
    cases hstep : stepFn cfg s l with
    | none => rw [hstep] at h; exact absurd h (by simp)
    | some s' =>
      rw [hstep] at h
      have h' : runLabs cfg s' ls = some final := h
      cases l with
      | start w pid =>
        obtain ⟨_, _, _, _, hpend, _, _, _, _, _, _⟩ := stepFn_start_inv hstep
        rw [hp] at hpend
        exact absurd hpend (by simp)
      | spawnFail w =>
        obtain ⟨_, _, _, hpend, _, _, _, _, _⟩ := stepFn_spawnFail_inv hstep
        rw [hp] at hpend
        exact absurd hpend (by simp)
      | finish w pid =>
        obtain ⟨_, _, hrun, _, _⟩ := stepFn_finish_inv hstep
        rw [hr] at hrun
        exact absurd hrun (by simp)
      | cancel =>
        rw [stepFn_cancel_eq] at hstep
        have hse := (Option.some.injEq _ _ ▸ hstep)
        subst hse
        refine ih _ final ?_ ?_ ?_ ?_ h'
        · exact hp
        · exact hr
        · exact ho
        · exact hs
      | exitLoop =>
        obtain ⟨_, _, _, hs'⟩ := stepFn_exitLoop_inv hstep
        subst hs'
        refine ih _ final ?_ ?_ ?_ ?_ h'
        · exact hp
        · exact hr
        · exact ho
        · exact hs

/-- Relation between the Python attribute current_process and the actually
in-flight child: while a child runs, current_process is exactly its
handle; between children the attribute still holds the handle of an
already-exited process (the code never resets it). -/
def handleInv (s : BatchState) : Prop :=
  (∀ pid wn, s.running = some (pid, wn) → s.current_process = some pid) ∧
  (s.running = none → ∀ pid, s.current_process = some pid → pid ∈ s.exited)

lemma handleInv_init (cfg : BatchCfg) : handleInv (initState cfg) := by
  constructor
  · intro pid wn h
    exact absurd h (by simp [initState])
  · intro _ pid h
    exact absurd h (by simp [initState])

lemma handleInv_step {cfg : BatchCfg} {s s' : BatchState} {l : Lab}
    (hstep : stepFn cfg s l = some s') (hinv : handleInv s) : handleInv s' := by
  cases l with
  | start w pid =>
    obtain ⟨_, _, _, _, _, _, _, _, _, _, hs'⟩ := stepFn_start_inv hstep
    subst hs'
    constructor
    · intro p wn h
      simp only at h ⊢
      obtain ⟨h1, _⟩ := Prod.mk.injEq .. ▸ (Option.some.injEq _ _ ▸ h)
      simp [← h1]
    · intro hr
      exact absurd hr (by simp)
  | spawnFail w =>
    obtain ⟨_, _, _, _, _, _, hrun, _, hs'⟩ := stepFn_spawnFail_inv hstep
    subst hs'
    constructor
    · intro p wn h
      rw [show ({ s with pending := _, fs := _, outcomes := _ } : BatchState).running = s.running
        from rfl, hrun] at h
      exact absurd h (by simp)
    · intro _ p h
      exact hinv.2 hrun p h
  | finish w pid =>
    obtain ⟨rc, errs, hrun, _, hs'⟩ := stepFn_finish_inv hstep
    subst hs'
    constructor
    · intro p wn h
      exact absurd h (by simp)
    · intro _ p h
      have hcur := hinv.1 pid w hrun
      simp only at h
      rw [hcur] at h
      have : pid = p := Option.some.injEq _ _ ▸ h
      subst this
      simp
  | cancel =>
    rw [stepFn_cancel_eq] at hstep
    have hse := (Option.some.injEq _ _ ▸ hstep)
    subst hse
    exact ⟨fun p wn h => hinv.1 p wn h, fun hr p h => hinv.2 hr p h⟩
  | exitLoop =>
    obtain ⟨_, _, _, hs'⟩ := stepFn_exitLoop_inv hstep
    subst hs'
    exact ⟨fun p wn h => hinv.1 p wn h, fun hr p h => hinv.2 hr p h⟩

lemma handleInv_run (cfg : BatchCfg) :
    ∀ (ls : List Lab) (s final : BatchState), handleInv s →
      runLabs cfg s ls = some final → handleInv final := by
  intro ls
  induction ls with
  | nil =>
    intro s final hinv h
    simp only [runLabs, Option.some.injEq] at h
    subst h
    exact hinv
  | cons l ls ih =>
    intro s final hinv h
    rw [runLabs_cons] at h
    cases hstep : stepFn cfg s l with
    | none => rw [hstep] at h; exact absurd h (by simp)
    | some s' =>
      rw [hstep] at h
      exact ih s' final (handleInv_step hstep hinv) h

lemma worldOutcome_name (wn : String) (rc : ℤ) (errs : List String) :
    (worldOutcome wn rc errs).world_name = wn := by
  unfold worldOutcome
  split <;> rfl

lemma expectedOutcome_name (cfg : BatchCfg) (w : String × String) :
    (expectedOutcome cfg w).world_name = w.1 := by
  unfold expectedOutcome
  cases cfg.beh w.1 with
  | completes rc errs => exact worldOutcome_name _ _ _
  | raises msg => rfl

lemma run_phase (cfg : BatchCfg) :
    ∀ (ls : List Lab),
      (∀ s final, runLabs cfg s ls = some final → Lab.cancel ∉ ls →
        s.running = none → s.stop_requested = false → s.done = false → final.done = true →
        final.outcomes = s.outcomes ++ s.pending.map (expectedOutcome cfg)) ∧
      (∀ s final pid wn rc errs, runLabs cfg s ls = some final → Lab.cancel ∉ ls →
        s.running = some (pid, wn) → cfg.beh wn = WorldBeh.completes rc errs →
        s.stop_requested = false → s.done = false → final.done = true →
        final.outcomes = (s.outcomes ++ [worldOutcome wn rc errs]) ++
          s.pending.map (expectedOutcome cfg)) := by
  intro ls
  induction ls with
  | nil =>
    constructor
    · intro s final h _ _ _ hdone hfdone
      simp only [runLabs, Option.some.injEq] at h
      subst h
      rw [hdone] at hfdone
      exact absurd hfdone (by simp)
    · intro s final pid wn rc errs h _ _ _ _ hdone hfdone
      simp only [runLabs, Option.some.injEq] at h
      subst h
      rw [hdone] at hfdone
      exact absurd hfdone (by simp)
  | cons l ls ih =>
    obtain ⟨ih1, ih2⟩ := ih
    constructor
    · intro s final h hnc hrun hstop hdone hfdone
      have hncl : Lab.cancel ∉ ls := fun hm => hnc (List.mem_cons_of_mem _ hm)
      rw [runLabs_cons] at h
      cases hstep : stepFn cfg s l with
      | none => rw [hstep] at h; exact absurd h (by simp)
      | some s' =>
        rw [hstep] at h
        have h' : runLabs cfg s' ls = some final := h
        cases l with
        | start w pid =>
          obtain ⟨wp, rest, rc, errs, hpend, _, _, _, _, hbeh, hs'⟩ := stepFn_start_inv hstep
          subst hs'
          have hout := ih2 _ final s.next_pid w rc errs h' hncl rfl hbeh hstop hdone hfdone
          rw [hout, hpend]
          simp [expectedOutcome, hbeh]
        | spawnFail w =>
          obtain ⟨wp, rest, msg, hpend, _, _, _, hbeh, hs'⟩ := stepFn_spawnFail_inv hstep
          subst hs'
          have hout := ih1 _ final h' hncl hrun hstop hdone hfdone
          rw [hout, hpend]
          simp [expectedOutcome, hbeh]
        | finish w pid =>
          obtain ⟨_, _, hrun', _, _⟩ := stepFn_finish_inv hstep
          rw [hrun] at hrun'
          exact absurd hrun' (by simp)
        | cancel => exact absurd (List.mem_cons_self _ _) hnc
        | exitLoop =>
          obtain ⟨_, _, hcond, hs'⟩ := stepFn_exitLoop_inv hstep
          subst hs'
          have hpend : s.pending = [] := by
            rcases hcond with hc | hc
            · exact hc
            · rw [hstop] at hc; exact absurd hc (by simp)
          have hfinal : final = { s with done := true } := by
            refine done_stuck cfg ls _ final ?_ ?_ hncl h'
            · rfl
            · exact hrun
          rw [hfinal]
          simp [hpend]
    · intro s final pid wn rc errs h hnc hrun hbeh hstop hdone hfdone
      have hncl : Lab.cancel ∉ ls := fun hm => hnc (List.mem_cons_of_mem _ hm)
      rw [runLabs_cons] at h
      cases hstep : stepFn cfg s l with
      | none => rw [hstep] at h; exact absurd h (by simp)
      | some s' =>
        rw [hstep] at h
        have h' : runLabs cfg s' ls = some final := h
        cases l with
        | start w q =>
          obtain ⟨_, _, _, _, _, _, _, hrun', _, _, _⟩ := stepFn_start_inv hstep
          rw [hrun] at hrun'
          exact absurd hrun' (by simp)
        | spawnFail w =>
          obtain ⟨_, _, _, _, _, _, hrun', _, _⟩ := stepFn_spawnFail_inv hstep
          rw [hrun] at hrun'
          exact absurd hrun' (by simp)
        | finish w q =>
          obtain ⟨rc', errs', hrun', hbeh', hs'⟩ := stepFn_finish_inv hstep
          rw [hrun] at hrun'
          have hqw : (pid, wn) = (q, w) := Option.some.injEq _ _ ▸ hrun'
          have hq : pid = q := congrArg Prod.fst hqw
          have hw : wn = w := congrArg Prod.snd hqw
          subst hq
          subst hw
          rw [hbeh] at hbeh'
          have hrc : rc = rc' := by cases hbeh'; rfl
          have herrs : errs = errs' := by cases hbeh'; rfl
          subst hrc
          subst herrs
          subst hs'
          have hout := ih1 _ final h' hncl rfl hstop hdone hfdone
          rw [hout]
        | cancel => exact absurd (List.mem_cons_self _ _) hnc
        | exitLoop =>
          obtain ⟨_, hrun', _, _⟩ := stepFn_exitLoop_inv hstep
          rw [hrun] at hrun'
          exact absurd hrun' (by simp)

lemma progressStep_fst_errors (world : String) (e : Bool) (line : String) (st : ReaderState) :
    (progressStep world e line st).1.errors = st.errors := by
  unfold progressStep
  split
  · split
    · split <;> rfl
    · rfl
  · rfl

lemma progressStep_parse_none {line : String} (world : String) (e : Bool) (st : ReaderState)
    (hfail : pyfloat? (String.mk (stripPct line.data)) = none) :
    progressStep world e line st = (st, []) := by
  unfold progressStep
  split
  · rw [hfail]
  · rfl

lemma progressStep_mem {world : String} {e : Bool} {line : String} {st : ReaderState}
    {w : String} {k : ℤ} (h : RunEvent.progress w k ∈ (progressStep world e line st).2) :
    e = false ∧ w = world ∧ line.data.contains '%' = true ∧
    ∃ p, pyfloat? (String.mk (stripPct line.data)) = some p ∧
      p.absDiffGeOne st.last_percentage = true ∧ k = pytrunc p := by
  unfold progressStep at h
  by_cases hc : (line.data.contains '%' = true ∧ e = false)
  · rw [if_pos hc] at h
    cases hp : pyfloat? (String.mk (stripPct line.data)) with
    | none => rw [hp] at h; simp at h
    | some p =>
      rw [hp] at h
      have h' : RunEvent.progress w k ∈
          (if p.absDiffGeOne st.last_percentage = true then
            ({ st with last_percentage := p }, [RunEvent.progress world (pytrunc p)])
          else (st, [])).2 := h
      by_cases hd : p.absDiffGeOne st.last_percentage = true
      · rw [if_pos hd] at h'
        simp only [List.mem_singleton, RunEvent.progress.injEq] at h'
        exact ⟨hc.2, h'.1, hc.1, p, rfl, hd, h'.2⟩
      · rw [if_neg hd] at h'; simp at h'
  · rw [if_neg hc] at h; simp at h

lemma logOnly_no_progress (world : String) (e : Bool) (raw : String) (st : ReaderState)
    (w : String) (k : ℤ) : RunEvent.progress w k ∉ (logOnly world e raw st).2 := by
  simp only [logOnly]
  split
  · simp
  · split
    · simp
    · simp

lemma logOnly_fst_last (world : String) (e : Bool) (raw : String) (st : ReaderState) :
    (logOnly world e raw st).1.last_percentage = st.last_percentage := by
  simp only [logOnly]
  split
  · rfl
  · split
    · split <;> rfl
    · rfl

lemma str_append_assoc (a b c : String) : (a ++ b) ++ c = a ++ (b ++ c) := by
  apply String.ext
  show (a.data ++ b.data) ++ c.data = a.data ++ (b.data ++ c.data)
  exact List.append_assoc _ _ _

lemma str_append_empty (a : String) : a ++ "" = a := by
  apply String.ext
  show a.data ++ [] = a.data
  exact List.append_nil _

lemma mem_ensure_dir (fs : List String) (d : String) : d ∈ ensure_dir fs d := by
  unfold ensure_dir
  split
  · assumption
  · simp

lemma ensure_dir_idem (fs : List String) (d : String) :
    ensure_dir (ensure_dir fs d) d = ensure_dir fs d := by
  rw [show ensure_dir (ensure_dir fs d) d =
    (if d ∈ ensure_dir fs d then ensure_dir fs d else ensure_dir fs d ++ [d]) from rfl]
  rw [if_pos (mem_ensure_dir fs d)]

lemma map_name_expected (cfg : BatchCfg) (ws : List (String × String)) :
    (ws.map (expectedOutcome cfg)).map ConversionOutcome.world_name = ws.map Prod.fst := by
  induction ws with
  | nil => rfl
  | cons w ws ih => simp [expectedOutcome_name, ih]

/-- C1: once a stop() request has been taken (a cancel step between the
atomic phases of the run loop), no further world conversion is started and
no further world is attempted: the loop head checks stop_requested before
taking the next pending world.  Moreover, with exactly one cancel in the
schedule, issued while a child process is in flight, that child receives
exactly one termination request over the whole run. -/
theorem c1_cancel_stops_batch (cfg : BatchCfg) (l1 l2 : List Lab)
    (sm sm' sf : BatchState) (pid : Nat) (wn : String)
    (h1 : runLabs cfg (initState cfg) l1 = some sm)
    (h2 : stepFn cfg sm Lab.cancel = some sm')
    (h3 : runLabs cfg sm' l2 = some sf)
    (hc1 : Lab.cancel ∉ l1) (hc2 : Lab.cancel ∉ l2)
    (hin : sm.running = some (pid, wn)) :
    (∀ w q, Lab.start w q ∉ l2) ∧ (∀ w, Lab.spawnFail w ∉ l2) ∧ sf.terms = [pid] := by
  have hinv := handleInv_run cfg l1 (initState cfg) sm (handleInv_init cfg) h1
  have hcur : sm.current_process = some pid := hinv.1 pid wn hin
  have ht1 : sm.terms = [] := by
    rw [terms_frozen cfg l1 (initState cfg) sm hc1 h1]
    rfl
  rw [stepFn_cancel_eq] at h2
  have hsm' : ({ sm with
      stop_requested := true
      terms := sm.terms ++ (match sm.current_process with | some p => [p] | none => []) } :
      BatchState) = sm' :=
    Option.some.injEq _ _ ▸ h2
  subst hsm'
  obtain ⟨hb1, hb2, _⟩ := stop_blocks cfg l2 _ sf rfl h3
  refine ⟨hb1, hb2, ?_⟩
  rw [terms_frozen cfg l2 _ sf hc2 h3]
  show sm.terms ++ (match sm.current_process with | some p => [p] | none => []) = [pid]
  rw [ht1, hcur]
  rfl

/-- C1 witness: two worlds, cancellation while world a is in flight; the
remaining schedule starts nothing and the child got one terminate(). -/
theorem c1_cancel_stops_batch_witness :
    (∀ w q, Lab.start w q ∉ [Lab.finish "a" 0, Lab.exitLoop]) ∧
    (∀ w, Lab.spawnFail w ∉ [Lab.finish "a" 0, Lab.exitLoop]) ∧ sW4.terms = [0] :=
  c1_cancel_stops_batch cfgW [Lab.start "a" 0] [Lab.finish "a" 0, Lab.exitLoop]
    sW1 sW2 sW4 0 "a" (by decide) (by decide) (by decide) (by decide) (by decide) (by decide)

/-- C3 counterexample: a directory holding only level.dat is accepted by
is_minecraft_world although the claimed marker set rejects it. -/
theorem c3_counterexample :
    is_minecraft_world ⟨["level.dat"], []⟩ = true ∧
    ¬ specConvertible ⟨["level.dat"], []⟩ := by
  constructor
  · decide
  · unfold specConvertible listdir
    decide

/-- C3 amended: is_minecraft_world accepts a directory exactly when its
listing contains level.dat, or session.lock, or a subdirectory named db
(each marker alone suffices); an empty directory is rejected. -/
theorem c3_world_detection (d : Dir) :
    (is_minecraft_world d = true ↔
      ("level.dat" ∈ listdir d ∨ "session.lock" ∈ listdir d ∨
        ("db" ∈ listdir d ∧ "db" ∈ d.subdirs))) ∧
    is_minecraft_world ⟨[], []⟩ = false := by
  constructor
  · constructor
    · intro h
      unfold is_minecraft_world at h
      by_cases h1 : ("level.dat" ∈ listdir d ∨ "session.lock" ∈ listdir d)
      · rcases h1 with h1 | h1
        · exact Or.inl h1
        · exact Or.inr (Or.inl h1)
      · rw [if_neg h1] at h
        by_cases h2 : ("db" ∈ listdir d ∧ "db" ∈ d.subdirs)
        · exact Or.inr (Or.inr h2)
        · rw [if_neg h2] at h
          exact absurd h (by simp)
    · intro h
      unfold is_minecraft_world
      rcases h with h | h | h
      · rw [if_pos (Or.inl h)]
      · rw [if_pos (Or.inr h)]
      · by_cases h1 : ("level.dat" ∈ listdir d ∨ "session.lock" ∈ listdir d)
        · rw [if_pos h1]
        · rw [if_neg h1, if_pos h]
  · decide

/-- C4 counterexample: with addSuffix the world name keeps its case; only
the format token is lower-cased, so the claimed all-lower-case example
path is not produced. -/
theorem c4_counterexample :
    path_join "/out" (output_dir_name true "MyWorld" "BEDROCK_1_20_80") =
      "/out/MyWorld_bedrock_1_20_80" ∧
    path_join "/out" (output_dir_name true "MyWorld" "BEDROCK_1_20_80") ≠
      "/out/myworld_bedrock_1_20_80" := by decide

/-- C4 amended: without the suffix the resolved output directory is
root/name regardless of the format; with the suffix it is
root/name_lower(format) with the world name's case preserved; the
directory is created before the process is launched (it is present in the
filesystem component of the post-start state) and creation is
idempotent. -/
theorem c4_output_directory (R name F : String) (fs : List String) (d : String) :
    output_dir_name false name F = name ∧
    output_dir_name true name F = name ++ "_" ++ strLower F ∧
    path_join R (output_dir_name false name F) = R ++ "/" ++ name ∧
    path_join R (output_dir_name true name F) = R ++ "/" ++ name ++ "_" ++ strLower F ∧
    ensure_dir (ensure_dir fs d) d = ensure_dir fs d ∧
    d ∈ ensure_dir fs d ∧
    (∀ (cfg : BatchCfg) (s : BatchState) (w : String) (pid : Nat) (s' : BatchState),
      stepFn cfg s (Lab.start w pid) = some s' → targetDirOf cfg w ∈ s'.fs) := by
  refine ⟨rfl, rfl, rfl, ?_, ensure_dir_idem fs d, mem_ensure_dir fs d, ?_⟩
  · simp [path_join, output_dir_name, str_append_assoc]
  · intro cfg s w pid s' hstep
    obtain ⟨_, _, _, _, _, _, _, _, _, _, hs'⟩ := stepFn_start_inv hstep
    subst hs'
    exact mem_ensure_dir _ _

/-- C4 witness: after the start step of world a, its resolved output
directory exists in the filesystem state. -/
theorem c4_output_directory_witness : targetDirOf cfgW "a" ∈ sW1.fs :=
  (c4_output_directory "/out" "MyWorld" "BEDROCK_1_20_80" [] "/out/a").2.2.2.2.2.2
    cfgW (initState cfgW) "a" 0 sW1 (by decide)

/-- C9 counterexample: after world a's process exits, the run state still
holds the process handle (current_process = some 0) although nothing is in
flight, so the handle is not cleared before the loop proceeds. -/
theorem c9_counterexample :
    runLabs cfgW (initState cfgW) [Lab.start "a" 0, Lab.finish "a" 0] = some sC9 ∧
    sC9.running = none ∧ sC9.current_process = some 0 := by decide

/-- C9 amended: current_process is never cleared on process exit (a finish
step leaves it untouched); while a child is in flight it is exactly that
child's handle, and outside an in-flight conversion it can only refer to a
process that has already exited — never to a live one. -/
theorem c9_handle_persistence (cfg : BatchCfg) (labs : List Lab) (final : BatchState)
    (h : runLabs cfg (initState cfg) labs = some final) :
    (∀ pid wn, final.running = some (pid, wn) → final.current_process = some pid) ∧
    (final.running = none → ∀ pid, final.current_process = some pid → pid ∈ final.exited) ∧
    (∀ (s s' : BatchState) (w : String) (q : Nat),
      stepFn cfg s (Lab.finish w q) = some s' → s'.current_process = s.current_process) := by
  have hinv := handleInv_run cfg labs (initState cfg) final (handleInv_init cfg) h
  refine ⟨hinv.1, hinv.2, ?_⟩
  intro s s' w q hstep
  obtain ⟨_, _, _, _, hs'⟩ := stepFn_finish_inv hstep
  subst hs'
  rfl

/-- C9 witness: the amended statement evaluated on the concrete run that
launches and finishes world a. -/
theorem c9_handle_persistence_witness :
    ((∀ pid wn, sC9.running = some (pid, wn) → sC9.current_process = some pid) ∧
    (sC9.running = none → ∀ pid, sC9.current_process = some pid → pid ∈ sC9.exited) ∧
    (∀ (s s' : BatchState) (w : String) (q : Nat),
      stepFn cfgW s (Lab.finish w q) = some s' → s'.current_process = s.current_process)) :=
  c9_handle_persistence cfgW [Lab.start "a" 0, Lab.finish "a" 0] sC9 (by decide)

/-- C2 counterexample: the non-error line "%50" produces a progress event
although it is not a number immediately followed by a percent sign — the
code removes every '%' before parsing instead of requiring a trailing
one. -/
theorem c2_counterexample :
    RunEvent.progress "w" 50 ∈ (processLine "w" false "%50" ⟨PyQ.zero, []⟩).2 ∧
    specNumberPercent "%50" = false := by decide

/-- C2 amended: the sequence "10%", "10.4%", "11%" on the non-error stream
from reference value 0 yields exactly the two progress events 10 and 11;
in general a progress event arises only from a non-error line containing a
percent sign whose text, with every '%' removed, parses as a float whose
value differs from the stored reference by at least 1.0, and it carries
that value truncated to an integer. -/
theorem c2_progress_hysteresis :
    (runLines "w" [(false, "10%"), (false, "10.4%"), (false, "11%")] ⟨PyQ.zero, []⟩).2 =
      [RunEvent.progress "w" 10, RunEvent.progress "w" 11] ∧
    (∀ (world : String) (is_error : Bool) (raw : String) (st : ReaderState) (w : String) (k : ℤ),
      RunEvent.progress w k ∈ (processLine world is_error raw st).2 →
      is_error = false ∧ w = world ∧ (pystrip raw).data.contains '%' = true ∧
      ∃ p, pyfloat? (String.mk (stripPct (pystrip raw).data)) = some p ∧
        p.absDiffGeOne st.last_percentage = true ∧ k = pytrunc p) := by
  constructor
  · decide
  · intro world is_error raw st w k h
    have hm : RunEvent.progress w k ∈ (progressStep world is_error (pystrip raw) st).2 := by
      simp only [processLine] at h
      by_cases h0 : pystrip raw = ""
      · rw [if_pos h0] at h
        simp at h
      · rw [if_neg h0] at h
        by_cases hl : (is_error = true ∨ endsWithPct (pystrip raw).data = false)
        · rw [if_pos hl] at h
          have h2 : RunEvent.progress w k ∈
              (progressStep world is_error (pystrip raw) st).2 ++
                [RunEvent.log ("[" ++ world ++ "] " ++ pystrip raw)] := h
          rcases List.mem_append.mp h2 with hx | hx
          · exact hx
          · simp at hx
        · rw [if_neg hl] at h
          exact h
    exact progressStep_mem hm

/-- C2 witness: the general direction evaluated on the line "10%" from
reference value 0. -/
theorem c2_progress_hysteresis_witness :
    false = false ∧ "w" = "w" ∧ (pystrip "10%").data.contains '%' = true ∧
    ∃ p, pyfloat? (String.mk (stripPct (pystrip "10%").data)) = some p ∧
      p.absDiffGeOne (⟨PyQ.zero, []⟩ : ReaderState).last_percentage = true ∧
      (10 : ℤ) = pytrunc p :=
  c2_progress_hysteresis.2 "w" false "10%" ⟨PyQ.zero, []⟩ "w" 10 (by decide)

/-- C5: exit code 0 yields a successful outcome whose message is
"Conversion successful", extended by a mapping-warning count when any
"Missing" lines were captured; a non-zero exit code yields a failed
outcome whose message carries the exit code and the newline-joined
captured lines, or "Unknown error" when none were captured. -/
theorem c5_exit_outcomes (wn : String) (rc : ℤ) (errors : List String) :
    (rc = 0 →
      (worldOutcome wn rc errors).success = true ∧
      (errors = [] → (worldOutcome wn rc errors).message = "Conversion successful") ∧
      (errors ≠ [] → (worldOutcome wn rc errors).message =
        "Conversion successful" ++ (" with " ++ toString errors.length ++ " mapping warnings"))) ∧
    (rc ≠ 0 →
      (worldOutcome wn rc errors).success = false ∧
      (worldOutcome wn rc errors).message =
        "Failed with exit code " ++ toString rc ++ ": " ++
          (if errors = [] then "Unknown error" else String.intercalate "\n" errors) ∧
      (∃ pre suf, (worldOutcome wn rc errors).message = pre ++ toString rc ++ suf) ∧
      (errors ≠ [] → ∃ pre suf, (worldOutcome wn rc errors).message =
        pre ++ String.intercalate "\n" errors ++ suf) ∧
      (errors = [] → ∃ pre suf, (worldOutcome wn rc errors).message =
        pre ++ "Unknown error" ++ suf)) := by
  constructor
  · intro h0
    subst h0
    refine ⟨by simp [worldOutcome], ?_, ?_⟩
    · intro he
      simp [worldOutcome, he, str_append_empty]
    · intro he
      simp [worldOutcome, he, str_append_assoc]
  · intro h0
    refine ⟨by simp [worldOutcome, h0], by simp [worldOutcome, h0], ?_, ?_, ?_⟩
    · refine ⟨"Failed with exit code ",
        ": " ++ (if errors = [] then "Unknown error" else String.intercalate "\n" errors), ?_⟩
      simp [worldOutcome, h0, str_append_assoc]
    · intro he
      refine ⟨"Failed with exit code " ++ toString rc ++ ": ", "", ?_⟩
      simp [worldOutcome, h0, he, str_append_assoc, str_append_empty]
    · intro he
      refine ⟨"Failed with exit code " ++ toString rc ++ ": ", "", ?_⟩
      simp [worldOutcome, h0, he, str_append_assoc, str_append_empty]

/-- C5 witness: exit code 1 with the captured line "Missing block mapping
X" gives a failed outcome whose message carries both. -/
theorem c5_exit_outcomes_witness :
    (worldOutcome "w" 1 ["Missing block mapping X"]).success = false ∧
    (∃ pre suf, (worldOutcome "w" 1 ["Missing block mapping X"]).message =
      pre ++ toString (1 : ℤ) ++ suf) ∧
    (∃ pre suf, (worldOutcome "w" 1 ["Missing block mapping X"]).message =
      pre ++ String.intercalate "\n" ["Missing block mapping X"] ++ suf) :=
  have h := (c5_exit_outcomes "w" 1 ["Missing block mapping X"]).2 (by decide)
  ⟨h.1, h.2.2.1, h.2.2.2.1 (by decide)⟩

/-- C6: in an uncancelled complete run every world of the batch receives
exactly one outcome, in input order; a world whose process attempt raises
becomes a failed outcome for that world alone, and the loop continues with
the remaining worlds. -/
theorem c6_per_world_failure_isolation (cfg : BatchCfg) (labs : List Lab) (final : BatchState)
    (h : runLabs cfg (initState cfg) labs = some final)
    (hnc : Lab.cancel ∉ labs) (hdone : final.done = true) :
    final.outcomes = cfg.worlds.map (expectedOutcome cfg) ∧
    final.outcomes.map ConversionOutcome.world_name = cfg.worlds.map Prod.fst := by
  have hout := (run_phase cfg labs).1 (initState cfg) final h hnc rfl rfl rfl hdone
  have hfin : final.outcomes = cfg.worlds.map (expectedOutcome cfg) := by
    rw [hout]
    show ([] : List ConversionOutcome) ++ cfg.worlds.map (expectedOutcome cfg) = _
    simp
  exact ⟨hfin, by rw [hfin, map_name_expected]⟩

/-- C6 witness: world x raises at spawn, world y completes with exit code
2; both receive their single outcome in order. -/
theorem c6_per_world_failure_isolation_witness :
    sE.outcomes = cfgE.worlds.map (expectedOutcome cfgE) ∧
    sE.outcomes.map ConversionOutcome.world_name = cfgE.worlds.map Prod.fst :=
  c6_per_world_failure_isolation cfgE
    [Lab.spawnFail "x", Lab.start "y" 0, Lab.finish "y" 0, Lab.exitLoop] sE
    (by decide) (by decide) (by decide)

/-- C7: with every earlier validation passing, an empty filtered world
list makes start_conversion return its warning synchronously, before any
thread or process exists; no started result is produced, and a run whose
world list is empty emits no outcome and launches nothing. -/
theorem c7_empty_worlds_rejected (jar_sel in_sel out_sel java_ok : Bool)
    (format_combo custom_text input_path : String) (input_dirs : List (String × Dir))
    (hj : jar_sel = true) (hi : in_sel = true) (ho : out_sel = true)
    (hcombo : format_combo ≠ "Custom") (hfmt : format_combo ≠ "")
    (hjava : java_ok = true) (hdirs : input_dirs ≠ [])
    (hfilter : input_dirs.filter (fun d => is_minecraft_world d.2) = []) :
    start_conversion jar_sel in_sel out_sel format_combo custom_text java_ok input_path
      input_dirs = StartResult.warnNoWorlds ∧
    (∀ ws f, start_conversion jar_sel in_sel out_sel format_combo custom_text java_ok input_path
      input_dirs ≠ StartResult.started ws f) ∧
    (∀ (cfg : BatchCfg) (labs : List Lab) (final : BatchState), cfg.worlds = [] →
      runLabs cfg (initState cfg) labs = some final →
      final.outcomes = [] ∧ final.started = []) := by
  subst hj
  subst hi
  subst ho
  subst hjava
  have h1 : start_conversion true true true format_combo custom_text true input_path
      input_dirs = StartResult.warnNoWorlds := by
    simp [start_conversion, hcombo, hfmt, hdirs, hfilter]
  refine ⟨h1, ?_, ?_⟩
  · intro ws f hc
    rw [h1] at hc
    cases hc
  · intro cfg labs final hw h
    refine empty_pending_run cfg labs (initState cfg) final ?_ rfl rfl rfl h
    show cfg.worlds = []
    exact hw

/-- C7 witness: a single non-world subdirectory leaves the filtered list
empty and start_conversion warns instead of starting. -/
theorem c7_empty_worlds_rejected_witness :
    start_conversion true true true "JAVA_1_21_5" "" true "/in" dirsNW =
      StartResult.warnNoWorlds ∧
    (∀ ws f, start_conversion true true true "JAVA_1_21_5" "" true "/in" dirsNW ≠
      StartResult.started ws f) ∧
    (∀ (cfg : BatchCfg) (labs : List Lab) (final : BatchState), cfg.worlds = [] →
      runLabs cfg (initState cfg) labs = some final →
      final.outcomes = [] ∧ final.started = []) :=
  c7_empty_worlds_rejected true true true true "JAVA_1_21_5" "" "/in" dirsNW
    rfl rfl rfl (by decide) (by decide) rfl (by decide) (by decide)

/-- C8 counterexample: the non-error line "Missing 50%" contains "Missing"
but ends with a percent sign, so the logging branch is skipped and the
line is not accumulated into the error list. -/
theorem c8_counterexample :
    hasMissing (pystrip "Missing 50%") = true ∧
    (processLine "w" false "Missing 50%" ⟨PyQ.zero, []⟩).1.errors = [] := by decide

/-- C8 amended: a line is accumulated into the error list exactly when,
after stripping, it is nonempty, contains "Missing", and is handled by the
logging branch — that is, it came from the error stream or does not end
with a percent sign; percentage-suppressed non-error lines are exempt even
when they contain "Missing". -/
theorem c8_missing_accumulation (world : String) (is_error : Bool) (raw : String)
    (st : ReaderState) :
    (processLine world is_error raw st).1.errors =
      st.errors ++
        (if pystrip raw ≠ "" ∧ hasMissing (pystrip raw) = true ∧
            (is_error = true ∨ endsWithPct (pystrip raw).data = false)
          then [pystrip raw] else []) := by
  simp only [processLine]
  by_cases h0 : pystrip raw = ""
  · rw [if_pos h0]
    simp [h0]
  · rw [if_neg h0]
    by_cases hl : (is_error = true ∨ endsWithPct (pystrip raw).data = false)
    · rw [if_pos hl]
      by_cases hm : hasMissing (pystrip raw) = true
      · rw [if_pos hm]
        simp [progressStep_fst_errors, h0, hm, hl]
      · rw [if_neg hm]
        simp [progressStep_fst_errors, h0, hm, hl]
    · rw [if_neg hl]
      simp [progressStep_fst_errors, h0, hl]

/-- C10: a non-error line containing a percent sign whose text, with the
percent signs removed, fails to parse as a float is handled without any
exception escaping the model of the reader: no progress event is emitted,
the hysteresis reference is unchanged, and the line goes through the
logging branch exactly as if the percentage branch were absent. -/
theorem c10_parse_failure_swallowed (world raw : String) (st : ReaderState)
    (hpct : (pystrip raw).data.contains '%' = true)
    (hfail : pyfloat? (String.mk (stripPct (pystrip raw).data)) = none) :
    processLine world false raw st = logOnly world false raw st ∧
    (∀ w k, RunEvent.progress w k ∉ (processLine world false raw st).2) ∧
    (processLine world false raw st).1.last_percentage = st.last_percentage := by
  have hne : pystrip raw ≠ "" := by
    intro h0
    rw [h0] at hpct
    exact absurd hpct (by decide)
  have hps : progressStep world false (pystrip raw) st = (st, []) :=
    progressStep_parse_none world false st hfail
  have heq : processLine world false raw st = logOnly world false raw st := by
    simp only [processLine, logOnly]
    rw [if_neg hne, if_neg hne, hps]
    rfl
  refine ⟨heq, ?_, ?_⟩
  · intro w k
    rw [heq]
    exact logOnly_no_progress world false raw st w k
  · rw [heq]
    exact logOnly_fst_last world false raw st

/-- C10 witness: the free-text line "Loading 50% done" parses to nothing,
emits no progress event, and is logged normally. -/
theorem c10_parse_failure_swallowed_witness :
    (processLine "w" false "Loading 50% done" ⟨PyQ.zero, []⟩ =
      logOnly "w" false "Loading 50% done" ⟨PyQ.zero, []⟩) ∧
    (∀ w k, RunEvent.progress w k ∉
      (processLine "w" false "Loading 50% done" ⟨PyQ.zero, []⟩).2) ∧
    (processLine "w" false "Loading 50% done" ⟨PyQ.zero, []⟩).1.last_percentage =
      (⟨PyQ.zero, []⟩ : ReaderState).last_percentage :=
  c10_parse_failure_swallowed "w" "Loading 50% done" ⟨PyQ.zero, []⟩ (by decide) (by decide)
